import Mathlib

set_option linter.unusedVariables false

/-! Verification of the physical execution layer: a shallow embedding of
`src/physical/map.rs` (the Map operator, the expression subsystem and the
typed array factory) and `src/physical/json.rs` (the JSON source), over
list-based columnar batches. -/

/-- Time units of the arrow `TimeUnit` enum used by `map.rs`. -/
inductive TimeUnit
  | Second
  | Millisecond
  | Microsecond
  | Nanosecond
deriving DecidableEq, Repr

/-- Date units of the arrow `DateUnit` enum used by `map.rs`. -/
inductive DateUnit
  | Day
  | Millisecond
deriving DecidableEq, Repr

/-- Interval units of the arrow `IntervalUnit` enum used by `map.rs`. -/
inductive IntervalUnit
  | YearMonth
  | DayTime
deriving DecidableEq, Repr

/-- Logical type tags (the arrow `DataType` enum as dispatched on by
`make_array` in `map.rs`). `Struct` and `Union` field lists are abstracted
to their arity: no code under verification inspects them. -/
inductive DataType
  | Boolean
  | Int8
  | Int16
  | Int32
  | Int64
  | UInt8
  | UInt16
  | UInt32
  | UInt64
  | Float16
  | Float32
  | Float64
  | Timestamp (unit : TimeUnit) (tz : Option String)
  | Date32 (unit : DateUnit)
  | Date64 (unit : DateUnit)
  | Time32 (unit : TimeUnit)
  | Time64 (unit : TimeUnit)
  | Duration (unit : TimeUnit)
  | Interval (unit : IntervalUnit)
  | Binary
  | FixedSizeBinary (width : Int)
  | LargeBinary
  | Utf8
  | LargeUtf8
  | List (child : DataType)
  | FixedSizeList (child : DataType) (size : Int)
  | LargeList (child : DataType)
  | Struct (arity : Nat)
  | Union (arity : Nat)
  | Dictionary (key : DataType) (value : DataType)
  | Null
deriving DecidableEq, Repr

/-- Errors of the execution layer: the arrow schema-lookup failure, the
scope-chain lookup failure, and `Error::Wrapped` (a message string wrapping
a boxed causal error), the three shapes reachable from the excerpted code. -/
inductive Error
  | fieldNotFound (name : String)
  | scopeNotFound (name : String)
  | wrapped (msg : String) (cause : Error)
deriving DecidableEq, Repr

/-- The Display rendering of an error, as captured by the `Wrapped` message
in `FieldExpression::field_meta` (map.rs line 126). -/
def Error.render : Error → String
  | .fieldNotFound n => "Unable to get field named " ++ n
  | .scopeNotFound n => "field " ++ n ++ " not found in any enclosing scope"
  | .wrapped m _ => m

/-- An error `carries` another error when the other error is the error
itself, appears as the rendered message of a wrapping layer, or sits in the
causal chain of a wrapping layer. -/
def Error.carriesB : Error → Error → Bool
  | .wrapped msg cause, t =>
    decide (Error.wrapped msg cause = t) || decide (msg = t.render) || Error.carriesB cause t
  | e, t => decide (e = t)

/-- The outcome of a fallible call: `ok` and `err` mirror `Result`, while
`fatal` models a Rust panic (`unimplemented!`, a failed `unwrap`, an
out-of-bounds index) — non-recoverable, propagating through every caller. -/
inductive Res (α : Type) where
  | ok : α → Res α
  | err : Error → Res α
  | fatal : Res α
deriving DecidableEq, Repr

deriving instance DecidableEq for Except

/-- Modelled from the spec: `ScalarValue` lives in `physical.rs`, which is
outside the excerpt. Spec section 3 fixes at minimum the null and 64-bit
integer variants and says the union is designed to extend toward the column
type lattice; `Boolean` and `Utf8` are included as representative further
variants, and column cells are modelled with the same type. -/
inductive ScalarValue
  | Null
  | Int64 (n : Int)
  | Boolean (b : Bool)
  | Utf8 (s : String)
deriving DecidableEq, Repr

/-- The logical type of a scalar value (`ScalarValue::data_type`, modelled
from the spec alongside `ScalarValue`). -/
def ScalarValue.data_type : ScalarValue → DataType
  | .Null => .Null
  | .Int64 _ => .Int64
  | .Boolean _ => .Boolean
  | .Utf8 _ => .Utf8

/-- Whether a scalar value is the 64-bit integer variant. -/
def ScalarValue.isInt64 : ScalarValue → Bool
  | .Int64 _ => true
  | _ => false

/-- An arrow `Field`: name, logical type, nullability. -/
structure ArrowField where
  name : String
  data_type : DataType
  nullable : Bool
deriving DecidableEq, Repr

/-- An arrow `Schema`: an ordered field list. -/
structure Schema where
  fields : List ArrowField
deriving DecidableEq, Repr

/-- A columnar array, abstracted to its cell values. -/
abbrev Column := List ScalarValue

/-- An arrow `RecordBatch`: a schema plus one column per field. -/
structure RecordBatch where
  schema : Schema
  columns : List Column
deriving DecidableEq, Repr

/-- `RecordBatch::num_rows`: the length of the first column. -/
def RecordBatch.num_rows (b : RecordBatch) : Nat :=
  (b.columns.headD []).length

/-- `RecordBatch::try_new`: the arity and equal-column-length validation
(per-cell type conformance is outside this value-level model). A `none`
models the constructor failing; every call site under verification unwraps
that failure into a panic. -/
def RecordBatch.try_new (schema : Schema) (columns : List Column) : Option RecordBatch :=
  if columns.length = schema.fields.length
      ∧ columns.all (fun c => c.length = (columns.headD []).length)
  then some ⟨schema, columns⟩ else none

/-- `Schema::index_of`: position of the field with the given name. -/
def Schema.index_of (s : Schema) (name : String) : Except Error Nat :=
  match s.fields.findIdx? (fun f => f.name == name) with
  | some i => .ok i
  | none => .error (.fieldNotFound name)

/-- `Schema::field_with_name`: the field with the given name. -/
def Schema.field_with_name (s : Schema) (name : String) : Except Error ArrowField :=
  match s.fields.find? (fun f => f.name == name) with
  | some f => .ok f
  | none => .error (.fieldNotFound name)

/-- Modelled from the spec: the schema scope chain (`SchemaContext` and
`SchemaContextWithSchema` live in `physical.rs`, outside the excerpt).
Spec sections 2 and 3: an immutable backward chain of schemas; lookup walks
outward from the innermost scope and fails only when no scope in the chain
defines the name. -/
inductive SchemaContext
  | empty
  | withSchema (previous : SchemaContext) (schema : Schema)
deriving DecidableEq, Repr

/-- Modelled from the spec: scope-chain name resolution (spec section 4.3):
the innermost scope schema is consulted first, then the chain is walked
outward; an exhausted chain is a scope-resolution error. -/
def SchemaContext.field_with_name : SchemaContext → String → Except Error ArrowField
  | .empty, name => .error (.scopeNotFound name)
  | .withSchema prev s, name =>
    match s.field_with_name name with
    | .ok f => .ok f
    | .error _ => prev.field_with_name name

/-- `VariableContext` (`physical.rs`; its shape — previous link, scope
schema, scope row values — is visible from its construction in map.rs
lines 236-242 and its traversal in lines 137-149). -/
inductive VariableContext
  | base (schema : Schema) (vars : List ScalarValue)
  | cons (previous : VariableContext) (schema : Schema) (vars : List ScalarValue)
deriving DecidableEq, Repr

/-- `ExecutionContext` (`physical.rs`): carries the variable scope chain. -/
structure ExecutionContext where
  variable_context : VariableContext
deriving DecidableEq, Repr

/-- Modelled from the spec: a `VariableContext` used as a `SchemaContext`
(as in `Map::run`, map.rs line 63) resolves names against the same
backward chain of scope schemas. -/
def VariableContext.toSchemaContext : VariableContext → SchemaContext
  | .base s _ => .withSchema .empty s
  | .cons prev s _ => .withSchema prev.toSchemaContext s

/-- `Constant::evaluate` (map.rs lines 175-189): an `Int64` literal is
broadcast to the batch's row count; every other variant falls into the
`unimplemented!` arm. -/
def constEvaluate (value : ScalarValue) (record : RecordBatch) : Res Column :=
  match value with
  | .Int64 n => .ok (List.replicate record.num_rows (.Int64 n))
  | _ => .fatal

/-- `Constant::field_meta` (map.rs lines 168-174): an anonymous field typed
by the literal, nullable exactly when the literal is null. -/
def Constant.field_meta (value : ScalarValue) (sctx : SchemaContext) (rs : Schema) : Res ArrowField :=
  .ok ⟨"", value.data_type, decide (value = .Null)⟩

/-- The scope-walk loop of `FieldExpression::evaluate` (map.rs lines
137-149): innermost scope first; a scope-schema hit broadcasts
`variables[index]` through the `Constant` evaluator; an exhausted chain
returns the original record-schema lookup error unchanged. -/
def fieldWalk (name : String) (record : RecordBatch) (err0 : Error) : VariableContext → Res Column
  | .base s vars =>
    match s.index_of name with
    | .ok index =>
      match vars[index]? with
      | some val => constEvaluate val record
      | none => .fatal
    | .error _ => .err err0
  | .cons prev s vars =>
    match s.index_of name with
    | .ok index =>
      match vars[index]? with
      | some val => constEvaluate val record
      | none => .fatal
    | .error _ => fieldWalk name record err0 prev

/-- `FieldExpression::evaluate` (map.rs lines 131-154): resolve against the
batch schema first; on failure walk the variable scope chain. -/
def FieldExpression.evaluate (field : String) (ctx : ExecutionContext) (record : RecordBatch) : Res Column :=
  match record.schema.index_of field with
  | .ok index =>
    match record.columns[index]? with
    | some col => .ok col
    | none => .fatal
  | .error err => fieldWalk field record err ctx.variable_context

/-- `FieldExpression::field_meta` (map.rs lines 114-130): batch schema
first, then the scope chain; a double miss returns `Error::Wrapped`
carrying the record-schema error's rendering as message and the scope
error as cause. -/
def FieldExpression.field_meta (field : String) (sctx : SchemaContext) (rs : Schema) : Res ArrowField :=
  match rs.field_with_name field with
  | .ok f => .ok f
  | .error arrow_err =>
    match sctx.field_with_name field with
    | .ok f => .ok f
    | .error e => .err (.wrapped arrow_err.render e)

/-- The innermost scope-chain binding of a name: the specification-side
view of the walk performed by `fieldWalk`. -/
def VariableContext.lookup (name : String) : VariableContext → Option ScalarValue
  | .base s vars =>
    match s.index_of name with
    | .ok index => vars[index]?
    | .error _ => none
  | .cons prev s vars =>
    match s.index_of name with
    | .ok index => vars[index]?
    | .error _ => prev.lookup name

/-- Whether any scope schema in the chain defines the name. -/
def VariableContext.hasName (name : String) : VariableContext → Bool
  | .base s _ =>
    match s.index_of name with
    | .ok _ => true
    | .error _ => false
  | .cons prev s _ =>
    (match s.index_of name with
     | .ok _ => true
     | .error _ => false) || prev.hasName name

/-- The concrete arrow array type each successful `make_array` arm
constructs (map.rs lines 280-384). -/
inductive ArrayKind
  | BooleanA
  | Int8A
  | Int16A
  | Int32A
  | Int64A
  | UInt8A
  | UInt16A
  | UInt32A
  | UInt64A
  | Float32A
  | Float64A
  | Date32A
  | Date64A
  | Time32SecondA
  | Time32MillisecondA
  | Time64MicrosecondA
  | Time64NanosecondA
  | TimestampSecondA
  | TimestampMillisecondA
  | TimestampMicrosecondA
  | TimestampNanosecondA
  | IntervalYearMonthA
  | IntervalDayTimeA
  | DurationSecondA
  | DurationMillisecondA
  | DurationMicrosecondA
  | DurationNanosecondA
  | BinaryA
  | LargeBinaryA
  | FixedSizeBinaryA
  | StringA
  | LargeStringA
  | ListA
  | LargeListA
  | StructA
  | UnionA
  | FixedSizeListA
  | DictionaryInt8A
  | DictionaryInt16A
  | DictionaryInt32A
  | DictionaryInt64A
  | DictionaryUInt8A
  | DictionaryUInt16A
  | DictionaryUInt32A
  | DictionaryUInt64A
  | NullA
deriving DecidableEq, Repr

/-- `make_array` (map.rs lines 280-384): the type-tag dispatch of the typed
array factory, abstracted from backing buffers to the array kind each arm
constructs. A `none` models a panicking arm: the explicit Float16 panic,
the non-integer dictionary key panic, and the final catch-all panic for
every tag and unit combination no arm lists. -/
def make_array : DataType → Option ArrayKind
  | .Boolean => some .BooleanA
  | .Int8 => some .Int8A
  | .Int16 => some .Int16A
  | .Int32 => some .Int32A
  | .Int64 => some .Int64A
  | .UInt8 => some .UInt8A
  | .UInt16 => some .UInt16A
  | .UInt32 => some .UInt32A
  | .UInt64 => some .UInt64A
  | .Float16 => none
  | .Float32 => some .Float32A
  | .Float64 => some .Float64A
  | .Date32 .Day => some .Date32A
  | .Date64 .Millisecond => some .Date64A
  | .Time32 .Second => some .Time32SecondA
  | .Time32 .Millisecond => some .Time32MillisecondA
  | .Time64 .Microsecond => some .Time64MicrosecondA
  | .Time64 .Nanosecond => some .Time64NanosecondA
  | .Timestamp .Second _ => some .TimestampSecondA
  | .Timestamp .Millisecond _ => some .TimestampMillisecondA
  | .Timestamp .Microsecond _ => some .TimestampMicrosecondA
  | .Timestamp .Nanosecond _ => some .TimestampNanosecondA
  | .Interval .YearMonth => some .IntervalYearMonthA
  | .Interval .DayTime => some .IntervalDayTimeA
  | .Duration .Second => some .DurationSecondA
  | .Duration .Millisecond => some .DurationMillisecondA
  | .Duration .Microsecond => some .DurationMicrosecondA
  | .Duration .Nanosecond => some .DurationNanosecondA
  | .Binary => some .BinaryA
  | .LargeBinary => some .LargeBinaryA
  | .FixedSizeBinary _ => some .FixedSizeBinaryA
  | .Utf8 => some .StringA
  | .LargeUtf8 => some .LargeStringA
  | .List _ => some .ListA
  | .LargeList _ => some .LargeListA
  | .Struct _ => some .StructA
  | .Union _ => some .UnionA
  | .FixedSizeList _ _ => some .FixedSizeListA
  | .Dictionary key _ =>
    match key with
    | .Int8 => some .DictionaryInt8A
    | .Int16 => some .DictionaryInt16A
    | .Int32 => some .DictionaryInt32A
    | .Int64 => some .DictionaryInt64A
    | .UInt8 => some .DictionaryUInt8A
    | .UInt16 => some .DictionaryUInt16A
    | .UInt32 => some .DictionaryUInt32A
    | .UInt64 => some .DictionaryUInt64A
    | _ => none
  | .Null => some .NullA
  | _ => none

/-- The type lattice exactly as the specification words it (spec section
4.4): boolean; signed and unsigned integers of all standard widths;
floating point; date, time, timestamp, duration and interval variants at
each unit the corresponding arrow array representation supports; fixed-
and variable-length binary and text; list, large list and fixed-size list;
struct; tagged union; dictionary keyed by each integer width; null-only.
This definition follows the specification's words, to be compared with the
source-derived `make_array`; Float16 has no array representation at this
arrow version and so is not one of the supported floating-point tags. -/
def specListedLattice : DataType → Bool
  | .Boolean => true
  | .Int8 | .Int16 | .Int32 | .Int64 => true
  | .UInt8 | .UInt16 | .UInt32 | .UInt64 => true
  | .Float32 | .Float64 => true
  | .Date32 .Day => true
  | .Date64 .Millisecond => true
  | .Time32 .Second | .Time32 .Millisecond => true
  | .Time64 .Microsecond | .Time64 .Nanosecond => true
  | .Timestamp _ _ => true
  | .Duration _ => true
  | .Interval _ => true
  | .Binary | .LargeBinary | .FixedSizeBinary _ => true
  | .Utf8 | .LargeUtf8 => true
  | .List _ | .LargeList _ | .FixedSizeList _ _ => true
  | .Struct _ | .Union _ => true
  | .Dictionary key _ =>
    (match key with
     | .Int8 | .Int16 | .Int32 | .Int64 => true
     | .UInt8 | .UInt16 | .UInt32 | .UInt64 => true
     | _ => false)
  | .Null => true
  | _ => false

mutual
/-- The expression variants of `map.rs`: `FieldExpression` (identifiers
modelled by their rendered string), `Constant`, and `Subquery`. -/
inductive Expression
  | field (name : String)
  | const (value : ScalarValue)
  | subquery (query : Node)

/-- The operator tree (`dyn Node`): the `Map` operator of `map.rs`, plus an
abstract leaf source (spec sections 2 and 6) described by its fixed output
schema and the batches its `run` pushes, standing for any external source
operator honoring the contract. -/
inductive Node
  | map (source : Node) (expressions : List Expression) (names : List String)
      (keep_source_fields : Bool)
  | source (schema : Schema) (batches : List RecordBatch)
end

/-- The reserved retraction column name (`retractions_field`, defined in
`physical.rs`; no claim depends on the literal string). -/
def retractions_field : String := "retraction"

/-- The rename loop of `Map::schema` (map.rs lines 44-46): the i-th
expression field is renamed to `names[i]`, keeping type and nullability; a
missing name is an out-of-bounds index panic. -/
def renameFields : List String → List ArrowField → Res (List ArrowField)
  | _, [] => .ok []
  | [], _ :: _ => .fatal
  | nm :: nms, f :: fs =>
    match renameFields nms fs with
    | .ok rest => .ok (⟨nm, f.data_type, f.nullable⟩ :: rest)
    | .err e => .err e
    | .fatal => .fatal

/-- Modelled from the spec: `create_row` (in `physical/datafusion.rs`,
outside the excerpt) extracts row `i` of the batch's columns into a scalar
vector, one value per column (spec section 4.3, subquery step 1). -/
def create_row (columns : List Column) (i : Nat) : List ScalarValue :=
  columns.map (fun c => c.getD i .Null)

/-- The per-row context extension of `Subquery::evaluate` (map.rs lines
236-242): the variable chain grows one scope binding the input schema to
row `i`'s extracted values. -/
def extendCtx (ctx : ExecutionContext) (record : RecordBatch) (i : Nat) : ExecutionContext :=
  ⟨.cons ctx.variable_context record.schema (create_row record.columns i)⟩

mutual
/-- `Node::schema`: a leaf source reports its fixed schema; `Map::schema`
is map.rs lines 35-55 — source schema, each expression's `field_meta`
(with an `Err` crashed by `unwrap_or_else` into `unimplemented!`, see
`fieldMetas`), renaming to the configured output names, optionally keeping
the source's non-retraction fields in front, and the retraction field
appended last. -/
def Node.schema : Node → SchemaContext → Res Schema
  | .source s _, _ => .ok s
  | .map src exprs names keep, sctx =>
    match Node.schema src sctx with
    | .ok source_schema =>
      match fieldMetas exprs sctx source_schema with
      | .ok metas =>
        match renameFields names metas with
        | .ok new_fields =>
          .ok ⟨(if keep then source_schema.fields.dropLast else []) ++ new_fields
                ++ [⟨retractions_field, .Boolean, false⟩]⟩
        | .err e => .err e
        | .fatal => .fatal
      | .err e => .err e
      | .fatal => .fatal
    | .err e => .err e
    | .fatal => .fatal
termination_by n sctx => sizeOf n

/-- The expression loop of `Map::schema` (map.rs lines 37-43): each
expression's `field_meta` in order; an `Err` result is turned by
`unwrap_or_else` into `unimplemented!`, i.e. a panic, never a returned
error. -/
def fieldMetas : List Expression → SchemaContext → Schema → Res (List ArrowField)
  | [], _, _ => .ok []
  | e :: es, sctx, s =>
    match Expression.field_meta e sctx s with
    | .ok f =>
      match fieldMetas es sctx s with
      | .ok fs => .ok (f :: fs)
      | .err e2 => .err e2
      | .fatal => .fatal
    | .err _ => .fatal
    | .fatal => .fatal
termination_by es sctx s => sizeOf es

/-- `Expression::field_meta` dispatch: `FieldExpression` (map.rs lines
114-130), `Constant` (lines 168-174), `Subquery` (lines 203-216 — the
inner query's schema under the chain extended with the record schema, its
first field; an empty inner schema would be an index panic). -/
def Expression.field_meta : Expression → SchemaContext → Schema → Res ArrowField
  | .field name, sctx, rs => FieldExpression.field_meta name sctx rs
  | .const v, sctx, rs => Constant.field_meta v sctx rs
  | .subquery q, sctx, rs =>
    match Node.schema q (.withSchema sctx rs) with
    | .ok s =>
      match s.fields.head? with
      | some f => .ok f
      | none => .fatal
    | .err e => .err e
    | .fatal => .fatal
termination_by e sctx rs => sizeOf e
end

mutual
/-- `Node::run`, with the batches pushed to `produce` collected in order: a
leaf source pushes its fixed batches; `Map::run` is map.rs lines 57-90 —
compute the output schema against the current variable chain, drive the
source, and transform every produced batch with the closure modelled by
`mapBatch`. -/
def Node.run : Node → ExecutionContext → Res (List RecordBatch)
  | .source _ batches, _ => .ok batches
  | .map src exprs names keep, ctx =>
    match Node.schema (.map src exprs names keep) ctx.variable_context.toSchemaContext with
    | .ok output_schema =>
      match Node.run src ctx with
      | .ok batches => mapBatches exprs keep output_schema ctx batches
      | .err e => .err e
      | .fatal => .fatal
    | .err e => .err e
    | .fatal => .fatal
termination_by n ctx => (sizeOf n, 0)

/-- The per-batch closure of `Map::run` applied to each source batch in
order; the first failing batch aborts the run. -/
def mapBatches (exprs : List Expression) (keep : Bool) (output_schema : Schema)
    (ctx : ExecutionContext) : List RecordBatch → Res (List RecordBatch)
  | [] => .ok []
  | b :: bs =>
    match mapBatch exprs keep output_schema ctx b with
    | .ok nb =>
      match mapBatches exprs keep output_schema ctx bs with
      | .ok rest => .ok (nb :: rest)
      | .err e => .err e
      | .fatal => .fatal
    | .err e => .err e
    | .fatal => .fatal
termination_by bs => (sizeOf exprs, 1 + sizeOf bs)

/-- The closure body of `Map::run` (map.rs lines 67-85): evaluate every
expression over the batch, append the source's retraction column unchanged
(an empty batch would be an index-underflow panic), optionally prepend the
source's non-retraction columns, and rebuild the batch against the output
schema (`try_new` failure is unwrapped into a panic). -/
def mapBatch (exprs : List Expression) (keep : Bool) (output_schema : Schema)
    (ctx : ExecutionContext) (b : RecordBatch) : Res RecordBatch :=
  match evalExprs exprs ctx b with
  | .ok cols =>
    match b.columns.getLast? with
    | some retr =>
      match RecordBatch.try_new output_schema
          ((if keep then b.columns.dropLast else []) ++ cols ++ [retr]) with
      | some nb => .ok nb
      | none => .fatal
    | none => .fatal
  | .err e => .err e
  | .fatal => .fatal
termination_by (sizeOf exprs, 1)

/-- `collect` over `expressions.iter().map(evaluate)` (map.rs lines 68-72):
one new column per expression, stopping at the first failure. -/
def evalExprs : List Expression → ExecutionContext → RecordBatch → Res (List Column)
  | [], _, _ => .ok []
  | e :: es, ctx, b =>
    match Expression.evaluate e ctx b with
    | .ok c =>
      match evalExprs es ctx b with
      | .ok cs => .ok (c :: cs)
      | .err e2 => .err e2
      | .fatal => .fatal
    | .err e2 => .err e2
    | .fatal => .fatal
termination_by es ctx b => (sizeOf es, 0)

/-- `Expression::evaluate` dispatch: `FieldExpression` (map.rs lines
131-154), `Constant` (lines 175-189), `Subquery` (lines 219-276 — inner
schema under the extended chain, its first field's type, the per-row inner
runs accumulating into one buffer, and the typed array factory assembling
the result, whose unsupported-type arms panic). -/
def Expression.evaluate : Expression → ExecutionContext → RecordBatch → Res Column
  | .field name, ctx, record => FieldExpression.evaluate name ctx record
  | .const v, ctx, record => constEvaluate v record
  | .subquery q, ctx, record =>
    match Node.schema q (.withSchema ctx.variable_context.toSchemaContext record.schema) with
    | .ok source_schema =>
      match source_schema.fields.head? with
      | some f =>
        match subqueryRows q ctx record (List.range record.num_rows) with
        | .ok values =>
          match make_array f.data_type with
          | some _ => .ok values
          | none => .fatal
        | .err e => .err e
        | .fatal => .fatal
      | none => .fatal
    | .err e => .err e
    | .fatal => .fatal
termination_by e ctx record => (sizeOf e, 0)

/-- The outer-row loop of `Subquery::evaluate` (map.rs lines 228-268): each
row index runs the inner query to completion against the extended context;
anything other than exactly one produced batch of exactly one row is
`unimplemented!`; the single result's first column is appended to the
accumulating buffer. -/
def subqueryRows (q : Node) (ctx : ExecutionContext) (record : RecordBatch) : List Nat → Res (List ScalarValue)
  | [] => .ok []
  | i :: is =>
    match Node.run q (extendCtx ctx record i) with
    | .ok batches =>
      match batches with
      | [b] =>
        if b.num_rows = 1 then
          match b.columns.head? with
          | some col =>
            match subqueryRows q ctx record is with
            | .ok rest => .ok (col ++ rest)
            | .err e => .err e
            | .fatal => .fatal
          | none => .fatal
        else .fatal
      | _ => .fatal
    | .err e => .err e
    | .fatal => .fatal
termination_by is => (sizeOf q, 1 + sizeOf is)
end

/-- `JSONSource::run` (json.rs lines 43-85), with the arrow JSON reader's
record chunks made explicit as input (the reader is external to this
repository; `with_batch_size` caps each chunk at the configured batch
size). Each chunk gets an all-false retraction column appended — the
preallocated full-batch-size array when the chunk is full, a freshly built
shorter one otherwise — and is rebuilt against the source's schema; a
chunk with no columns would be an index panic, and a `try_new` failure is
unwrapped into a panic. -/
def JSONSource.run (batchSize : Nat) (schema : Schema) : List (List Column) → Res (List RecordBatch)
  | [] => .ok []
  | chunk :: rest =>
    match chunk.head? with
    | some c0 =>
      match RecordBatch.try_new schema
          (chunk ++ [if c0.length = batchSize
                     then List.replicate batchSize (ScalarValue.Boolean false)
                     else List.replicate c0.length (ScalarValue.Boolean false)]) with
      | some b =>
        match JSONSource.run batchSize schema rest with
        | .ok out => .ok (b :: out)
        | .err e => .err e
        | .fatal => .fatal
      | none => .fatal
    | none => .fatal

/-! Supporting lemmas. -/

/-- A name the record schema lacks by `field_with_name` is also lacked by
`index_of`, with the same not-found error. -/
theorem index_of_error_of_fwn_error (s : Schema) (x : String) (ae : Error)
    (h : s.field_with_name x = .error ae) :
    s.index_of x = .error (.fieldNotFound x) := by
  unfold Schema.field_with_name at h
  unfold Schema.index_of
  cases hf : s.fields.find? (fun f => f.name == x) with
  | some f => rw [hf] at h; cases h
  | none =>
    have : s.fields.findIdx? (fun f => f.name == x) = none := by
      rw [List.findIdx?_eq_none_iff]
      intro y hy
      have := List.find?_eq_none.mp hf y hy
      simpa using this
    rw [this]

/-- The only error `field_with_name` produces is the not-found error for
the requested name. -/
theorem fwn_error_shape (s : Schema) (x : String) (ae : Error)
    (h : s.field_with_name x = .error ae) : ae = .fieldNotFound x := by
  unfold Schema.field_with_name at h
  cases hf : s.fields.find? (fun f => f.name == x) with
  | some f => rw [hf] at h; cases h
  | none => rw [hf] at h; cases h; rfl

/-- When the innermost binding of a name in the variable chain is `v`, the
scope walk of `FieldExpression::evaluate` broadcasts `v` through the
constant evaluator. -/
theorem fieldWalk_of_lookup (name : String) (record : RecordBatch) (err0 : Error)
    (v : ScalarValue) :
    ∀ vc : VariableContext, vc.lookup name = some v →
      fieldWalk name record err0 vc = constEvaluate v record := by
  intro vc
  induction vc with
  | base s vars =>
    intro h
    unfold VariableContext.lookup at h
    unfold fieldWalk
    cases hidx : s.index_of name with
    | ok i =>
      rw [hidx] at h
      simp at h
      simp [hidx, h]
    | error e =>
      rw [hidx] at h
      simp at h
  | cons prev s vars ih =>
    intro h
    unfold VariableContext.lookup at h
    unfold fieldWalk
    cases hidx : s.index_of name with
    | ok i =>
      rw [hidx] at h
      simp at h
      simp [hidx, h]
    | error e =>
      rw [hidx] at h
      simp only [hidx]
      exact ih h

/-- When no scope schema in the variable chain defines the name, the scope
walk returns the original record-schema lookup error unchanged. -/
theorem fieldWalk_of_not_hasName (name : String) (record : RecordBatch) (err0 : Error) :
    ∀ vc : VariableContext, vc.hasName name = false →
      fieldWalk name record err0 vc = .err err0 := by
  intro vc
  induction vc with
  | base s vars =>
    intro h
    unfold VariableContext.hasName at h
    unfold fieldWalk
    cases hidx : s.index_of name with
    | ok i => rw [hidx] at h; simp at h
    | error e => simp [hidx]
  | cons prev s vars ih =>
    intro h
    unfold VariableContext.hasName at h
    cases hidx : s.index_of name with
    | ok i => rw [hidx] at h; simp at h
    | error e =>
      rw [hidx] at h
      simp at h
      unfold fieldWalk
      simp only [hidx]
      exact ih h

/-! Claim theorems. -/

/-- C9: the typed array factory constructs a typed array for exactly the
type tags of the listed lattice — boolean; signed and unsigned integers of
all standard widths; floating point; date, time, timestamp, duration and
interval at all supported units; fixed- and variable-length binary and
text; list, large list and fixed-size list; struct; union; dictionary
keyed by each integer width; null-only — and every tag outside it (the
explicitly unsupported Float16, a non-integer dictionary key, a unit
combination with no array representation) hits a fatal panic arm,
modelled by `none`. -/
theorem make_array_coverage (dt : DataType) :
    (make_array dt).isSome = specListedLattice dt := by
  cases dt <;> first
    | rfl
    | (rename_i u v; cases u <;> rfl)
    | (rename_i u; cases u <;> rfl)

/-- C10 (amended statement support), first part: `Constant::evaluate`
panics exactly on non-Int64 scalars; second part: a field reference whose
name resolves only in an outer scope, to a non-Int64 value, evaluates to
the fatal unimplemented branch, never to a value or recoverable error. -/
theorem constant_int64_only (v : ScalarValue) (record : RecordBatch) (x : String)
    (ctx : ExecutionContext) (e : Error) :
    (constEvaluate v record = Res.fatal ↔ v.isInt64 = false)
    ∧ (record.schema.index_of x = .error e →
       ctx.variable_context.lookup x = some v →
       v.isInt64 = false →
       FieldExpression.evaluate x ctx record = Res.fatal) := by
  constructor
  · cases v <;> simp [constEvaluate, ScalarValue.isInt64]
  · intro h1 h2 h3
    unfold FieldExpression.evaluate
    simp only [h1]
    rw [fieldWalk_of_lookup x record e v ctx.variable_context h2]
    cases v <;> simp_all [constEvaluate, ScalarValue.isInt64]

/-- C10 witness: broadcasting a Boolean outer-row binding, and evaluating
a Boolean constant, both end in the fatal unimplemented branch. -/
theorem constant_int64_only_witness :
    constEvaluate (ScalarValue.Boolean true)
        ⟨⟨[⟨"a", DataType.Int64, false⟩]⟩, [[ScalarValue.Int64 7]]⟩ = Res.fatal
    ∧ FieldExpression.evaluate "x"
        ⟨.base ⟨[⟨"x", DataType.Boolean, false⟩]⟩ [ScalarValue.Boolean true]⟩
        ⟨⟨[⟨"a", DataType.Int64, false⟩]⟩, [[ScalarValue.Int64 7]]⟩ = Res.fatal := by
  have h := constant_int64_only (ScalarValue.Boolean true)
      ⟨⟨[⟨"a", DataType.Int64, false⟩]⟩, [[ScalarValue.Int64 7]]⟩ "x"
      ⟨.base ⟨[⟨"x", DataType.Boolean, false⟩]⟩ [ScalarValue.Boolean true]⟩
      (Error.fieldNotFound "x")
  exact ⟨h.1.mpr rfl, h.2 (by decide) (by decide) rfl⟩

/-- C3 counterexample: the batch schema lacks "x" and the innermost (only)
enclosing scope binds "x" to the null scalar, yet evaluation does not
return the broadcast array of nulls — it hits the constant evaluator's
fatal unimplemented branch. -/
theorem field_broadcast_cex :
    VariableContext.lookup "x"
        (.base ⟨[⟨"x", DataType.Null, true⟩]⟩ [ScalarValue.Null]) = some ScalarValue.Null
    ∧ FieldExpression.evaluate "x"
        ⟨.base ⟨[⟨"x", DataType.Null, true⟩]⟩ [ScalarValue.Null]⟩
        ⟨⟨[⟨"a", DataType.Int64, false⟩]⟩, [[ScalarValue.Int64 1, ScalarValue.Int64 2]]⟩
        = Res.fatal
    ∧ FieldExpression.evaluate "x"
        ⟨.base ⟨[⟨"x", DataType.Null, true⟩]⟩ [ScalarValue.Null]⟩
        ⟨⟨[⟨"a", DataType.Int64, false⟩]⟩, [[ScalarValue.Int64 1, ScalarValue.Int64 2]]⟩
        ≠ Res.ok (List.replicate 2 ScalarValue.Null) := by
  refine ⟨by decide, by decide, by decide⟩

/-- C3 (amended): when the batch schema lacks the name, and the innermost
scope-chain binding of the name is the 64-bit integer `n`, the field
reference evaluates without reading any batch column to the constant
broadcast — an array of the batch's row count with every entry `n`.
(Bindings of any other scalar variant instead hit the constant evaluator's
fatal unimplemented branch, see `constant_int64_only`.) -/
theorem field_broadcast_int64 (x : String) (ctx : ExecutionContext)
    (record : RecordBatch) (e : Error) (n : Int) :
    record.schema.index_of x = .error e →
    ctx.variable_context.lookup x = some (.Int64 n) →
    FieldExpression.evaluate x ctx record
      = Res.ok (List.replicate record.num_rows (.Int64 n)) := by
  intro h1 h2
  unfold FieldExpression.evaluate
  simp only [h1]
  rw [fieldWalk_of_lookup x record e (.Int64 n) ctx.variable_context h2]
  rfl

/-- C3 witness: a two-row batch without "x", an enclosing scope binding
"x" to 5, evaluates to the broadcast array of two 5s. -/
theorem field_broadcast_int64_witness :
    FieldExpression.evaluate "x"
        ⟨.base ⟨[⟨"x", DataType.Int64, false⟩]⟩ [ScalarValue.Int64 5]⟩
        ⟨⟨[⟨"a", DataType.Int64, false⟩]⟩, [[ScalarValue.Int64 1, ScalarValue.Int64 2]]⟩
      = Res.ok [ScalarValue.Int64 5, ScalarValue.Int64 5] :=
  field_broadcast_int64 "x"
    ⟨.base ⟨[⟨"x", DataType.Int64, false⟩]⟩ [ScalarValue.Int64 5]⟩
    ⟨⟨[⟨"a", DataType.Int64, false⟩]⟩, [[ScalarValue.Int64 1, ScalarValue.Int64 2]]⟩
    (Error.fieldNotFound "x") 5 (by decide) (by decide)

/-- C5 counterexample: a `Constant` holding the null literal over a one-row
batch does not return the one-entry array of nulls — `Constant::evaluate`
hits the fatal unimplemented branch for every non-Int64 literal. -/
theorem constant_eval_cex :
    constEvaluate ScalarValue.Null
        ⟨⟨[⟨"a", DataType.Int64, false⟩]⟩, [[ScalarValue.Int64 3]]⟩ = Res.fatal
    ∧ constEvaluate ScalarValue.Null
        ⟨⟨[⟨"a", DataType.Int64, false⟩]⟩, [[ScalarValue.Int64 3]]⟩
        ≠ Res.ok (List.replicate 1 ScalarValue.Null) := by
  refine ⟨by decide, by decide⟩

/-- C5 (amended): `Constant::field_meta` reports, for every literal, a
field typed by the literal's type and nullable exactly when the literal is
null; `Constant::evaluate` materializes the broadcast array only for
64-bit integer literals — in particular literal 42 over a 5-row batch
yields five 42s with reported type non-nullable Int64 — while any other
literal hits the fatal unimplemented branch instead of returning a
value. -/
theorem constant_meta_eval (v : ScalarValue) (sctx : SchemaContext) (rs : Schema)
    (record : RecordBatch) (n : Int) :
    (∃ f, Constant.field_meta v sctx rs = Res.ok f
        ∧ f.data_type = v.data_type ∧ (f.nullable = true ↔ v = .Null))
    ∧ Expression.evaluate (.const (.Int64 n)) ⟨.base ⟨[]⟩ []⟩ record
        = Res.ok (List.replicate record.num_rows (.Int64 n))
    ∧ (v.isInt64 = false → constEvaluate v record = Res.fatal)
    ∧ Constant.field_meta (.Int64 42) sctx rs
        = Res.ok ⟨"", DataType.Int64, false⟩
    ∧ Expression.evaluate (.const (.Int64 42)) ⟨.base ⟨[]⟩ []⟩
        ⟨⟨[⟨"a", DataType.Int64, false⟩]⟩,
         [[ScalarValue.Int64 1, ScalarValue.Int64 2, ScalarValue.Int64 3,
           ScalarValue.Int64 4, ScalarValue.Int64 5]]⟩
        = Res.ok [ScalarValue.Int64 42, ScalarValue.Int64 42, ScalarValue.Int64 42,
                  ScalarValue.Int64 42, ScalarValue.Int64 42] := by
  refine ⟨⟨⟨"", v.data_type, decide (v = .Null)⟩, rfl, rfl, by cases v <;> simp⟩, ?_, ?_, rfl, ?_⟩
  · simp [Expression.evaluate, constEvaluate]
  · intro h; cases v <;> simp_all [constEvaluate, ScalarValue.isInt64]
  · simp [Expression.evaluate, constEvaluate]
    rfl

/-- C5 witness: the amended theorem applied at a Utf8 literal (fatal
evaluation branch) and at literal 42 (reported non-nullable Int64). -/
theorem constant_meta_eval_witness :
    constEvaluate (ScalarValue.Utf8 "z") ⟨⟨[]⟩, []⟩ = Res.fatal
    ∧ Constant.field_meta (.Int64 42) .empty ⟨[]⟩ = Res.ok ⟨"", DataType.Int64, false⟩ := by
  have h := constant_meta_eval (ScalarValue.Utf8 "z") .empty ⟨[]⟩ ⟨⟨[]⟩, []⟩ 0
  exact ⟨h.2.2.1 rfl, h.2.2.2.1⟩

/-- C6: when a referenced name is absent from the input batch's schema and
from every scope in the enclosing chain, `field_meta` fails with the
wrapped name-resolution error whose message renders the originating
(nearest, record-schema) lookup failure and whose cause is the scope
failure, and `evaluate` fails with the originating record-schema lookup
error itself — in both cases the error carries the originating failure,
never masking it. -/
theorem fieldref_unresolved_error (x : String) (sctx : SchemaContext)
    (ctx : ExecutionContext) (record : RecordBatch) (ae se : Error) :
    record.schema.field_with_name x = .error ae →
    sctx.field_with_name x = .error se →
    ctx.variable_context.hasName x = false →
    FieldExpression.field_meta x sctx record.schema = Res.err (.wrapped ae.render se)
    ∧ Error.carriesB (.wrapped ae.render se) ae = true
    ∧ FieldExpression.evaluate x ctx record = Res.err (.fieldNotFound x)
    ∧ Error.carriesB (.fieldNotFound x) (.fieldNotFound x) = true := by
  intro h1 h2 h3
  refine ⟨?_, ?_, ?_, by simp [Error.carriesB]⟩
  · unfold FieldExpression.field_meta
    simp only [h1, h2]
  · simp [Error.carriesB]
  · unfold FieldExpression.evaluate
    have hidx := index_of_error_of_fwn_error record.schema x ae h1
    simp only [hidx]
    exact fieldWalk_of_not_hasName x record (.fieldNotFound x) ctx.variable_context h3

/-- C6 witness: name "x" absent from a concrete batch schema, from the
schema chain, and from the variable chain: both failures carry the
originating lookup error. -/
theorem fieldref_unresolved_error_witness :
    FieldExpression.field_meta "x" SchemaContext.empty
        ⟨[⟨"a", DataType.Int64, false⟩]⟩
      = Res.err (.wrapped (Error.render (.fieldNotFound "x")) (.scopeNotFound "x"))
    ∧ FieldExpression.evaluate "x" ⟨.base ⟨[⟨"b", DataType.Int64, false⟩]⟩ [ScalarValue.Int64 9]⟩
        ⟨⟨[⟨"a", DataType.Int64, false⟩]⟩, [[ScalarValue.Int64 1]]⟩
      = Res.err (.fieldNotFound "x") := by
  have h := fieldref_unresolved_error "x" SchemaContext.empty
      ⟨.base ⟨[⟨"b", DataType.Int64, false⟩]⟩ [ScalarValue.Int64 9]⟩
      ⟨⟨[⟨"a", DataType.Int64, false⟩]⟩, [[ScalarValue.Int64 1]]⟩
      (.fieldNotFound "x") (.scopeNotFound "x") (by decide) (by decide) (by decide)
  exact ⟨h.1, h.2.2.1⟩

/-- A successful `Map::schema` expression loop yields one field per
expression. -/
theorem fieldMetas_length (es : List Expression) (sctx : SchemaContext) (s : Schema)
    (fs : List ArrowField) (h : fieldMetas es sctx s = .ok fs) :
    fs.length = es.length := by
  induction es generalizing fs with
  | nil => unfold fieldMetas at h; cases h; rfl
  | cons e es ih =>
    unfold fieldMetas at h
    cases hm : Expression.field_meta e sctx s with
    | ok f =>
      rw [hm] at h
      cases hr : fieldMetas es sctx s with
      | ok fs2 => rw [hr] at h; simp at h; cases h; simp [ih fs2 hr]
      | err e2 => rw [hr] at h; simp at h
      | fatal => rw [hr] at h; simp at h
    | err e2 => rw [hm] at h; simp at h
    | fatal => rw [hm] at h; simp at h

/-- When the name list is at least as long as the field list, the rename
loop of `Map::schema` is the index-wise rename. -/
theorem renameFields_zip (names : List String) (fs : List ArrowField)
    (h : fs.length ≤ names.length) :
    renameFields names fs
      = .ok (List.zipWith (fun nm f => ArrowField.mk nm f.data_type f.nullable) names fs) := by
  induction fs generalizing names with
  | nil => cases names <;> rfl
  | cons f fs ih =>
    cases names with
    | nil => simp at h
    | cons nm nms =>
      simp at h
      unfold renameFields
      rw [ih nms h]
      rfl

/-- C1: with all expression `field_meta`s succeeding and one configured
output name per expression, `Map::schema` is exactly: the renamed
expression fields (prefixed, when `keep_source_fields` is set, by the
source schema's non-retraction fields in source order) with the retraction
field appended last; the renamed block has exactly one field per
expression, so `keep_source_fields = false` gives N+1 fields. -/
theorem map_schema_fields (src : Node) (exprs : List Expression) (names : List String)
    (keep : Bool) (sctx : SchemaContext) (s : Schema) (fs : List ArrowField) :
    Node.schema src sctx = .ok s →
    fieldMetas exprs sctx s = .ok fs →
    names.length = exprs.length →
    Node.schema (.map src exprs names keep) sctx
      = .ok ⟨(if keep then s.fields.dropLast else [])
             ++ List.zipWith (fun nm f => ArrowField.mk nm f.data_type f.nullable) names fs
             ++ [⟨retractions_field, .Boolean, false⟩]⟩
    ∧ (List.zipWith (fun nm f => ArrowField.mk nm f.data_type f.nullable) names fs).length
        = exprs.length := by
  intro h1 h2 h3
  have hlen := fieldMetas_length exprs sctx s fs h2
  have hzip : (List.zipWith (fun nm f => ArrowField.mk nm f.data_type f.nullable) names fs).length
      = exprs.length := by
    rw [List.length_zipWith, h3, hlen]
    simp
  refine ⟨?_, hzip⟩
  unfold Node.schema
  simp only [h1, h2, renameFields_zip names fs (by rw [hlen, ← h3])]

/-- C1 witness: a source with one data field, one field-reference
expression renamed to "y": with `keep_source_fields = false` the output
schema is exactly ["y", retraction]; with `keep_source_fields = true` it
is ["a", "y", retraction]. -/
theorem map_schema_fields_witness :
    Node.schema (.map (.source ⟨[⟨"a", DataType.Int64, false⟩,
        ⟨"retraction", DataType.Boolean, false⟩]⟩ []) [.field "a"] ["y"] false)
        SchemaContext.empty
      = Res.ok ⟨[⟨"y", DataType.Int64, false⟩, ⟨"retraction", DataType.Boolean, false⟩]⟩
    ∧ Node.schema (.map (.source ⟨[⟨"a", DataType.Int64, false⟩,
        ⟨"retraction", DataType.Boolean, false⟩]⟩ []) [.field "a"] ["y"] true)
        SchemaContext.empty
      = Res.ok ⟨[⟨"a", DataType.Int64, false⟩, ⟨"y", DataType.Int64, false⟩,
                 ⟨"retraction", DataType.Boolean, false⟩]⟩ := by
  have hmeta : fieldMetas [.field "a"] SchemaContext.empty
      ⟨[⟨"a", DataType.Int64, false⟩, ⟨"retraction", DataType.Boolean, false⟩]⟩
      = .ok [⟨"a", DataType.Int64, false⟩] := by
    simp [fieldMetas, Expression.field_meta, FieldExpression.field_meta, Schema.field_with_name]
  constructor
  · exact (map_schema_fields (.source ⟨[⟨"a", DataType.Int64, false⟩,
      ⟨"retraction", DataType.Boolean, false⟩]⟩ []) [.field "a"] ["y"] false
      SchemaContext.empty _ _ (by simp [Node.schema]) hmeta rfl).1
  · exact (map_schema_fields (.source ⟨[⟨"a", DataType.Int64, false⟩,
      ⟨"retraction", DataType.Boolean, false⟩]⟩ []) [.field "a"] ["y"] true
      SchemaContext.empty _ _ (by simp [Node.schema]) hmeta rfl).1

/-- What a successful `RecordBatch::try_new` guarantees: the batch holds
the given schema and columns, one column per field, all of equal length. -/
theorem try_new_some (schema : Schema) (cols : List Column) (nb : RecordBatch)
    (h : RecordBatch.try_new schema cols = some nb) :
    nb.schema = schema ∧ nb.columns = cols ∧ cols.length = schema.fields.length
    ∧ ∀ c ∈ cols, c.length = (cols.headD []).length := by
  unfold RecordBatch.try_new at h
  split at h
  · rename_i hcond
    cases h
    refine ⟨rfl, rfl, hcond.1, ?_⟩
    intro c hc
    have := List.all_eq_true.mp hcond.2 c hc
    simpa using this
  · cases h

/-- C2: a batch the Map operator's per-batch closure successfully
transforms keeps its row count, its retraction column (the same array, so
the same boolean per row position), and — when `keep_source_fields` is
set — its original non-retraction columns as an unchanged prefix: Map
recomputes column values but never which rows are insertions versus
retractions, nor their order. -/
theorem map_batch_retractions (exprs : List Expression) (keep : Bool)
    (os : Schema) (ctx : ExecutionContext) (b nb : RecordBatch) :
    mapBatch exprs keep os ctx b = .ok nb →
    (∀ c ∈ b.columns, c.length = b.num_rows) →
    nb.num_rows = b.num_rows
    ∧ nb.columns.getLast? = b.columns.getLast?
    ∧ (keep = true → nb.columns.take (b.columns.length - 1) = b.columns.dropLast) := by
  intro h hwf
  unfold mapBatch at h
  cases he : evalExprs exprs ctx b with
  | ok cols =>
    simp only [he] at h
    cases hl : b.columns.getLast? with
    | some retr =>
      simp only [hl] at h
      cases ht : RecordBatch.try_new os
          ((if keep then b.columns.dropLast else []) ++ cols ++ [retr]) with
      | some nb2 =>
        simp only [ht] at h
        cases h
        obtain ⟨hs, hc, hcount, hall⟩ := try_new_some _ _ _ ht
        have hmem : retr ∈ b.columns := List.mem_of_getLast?_eq_some hl
        have hretr : retr.length = b.num_rows := hwf retr hmem
        have hmem2 : retr ∈ (if keep then b.columns.dropLast else []) ++ cols ++ [retr] := by
          simp
        have hnum : nb.num_rows = b.num_rows := by
          unfold RecordBatch.num_rows
          rw [hc]
          rw [← hall retr hmem2, hretr]
          rfl
        refine ⟨hnum, ?_, ?_⟩
        · rw [hc, List.getLast?_concat]
        · intro hkeep
          subst hkeep
          rw [hc]
          have hif : (if true = true then b.columns.dropLast else []) = b.columns.dropLast := rfl
          rw [hif, List.append_assoc]
          exact List.take_left' (List.length_dropLast _)
      | none => simp only [ht] at h; cases h
    | none => simp only [hl] at h; cases h
  | err e2 => simp only [he] at h; cases h
  | fatal => simp only [he] at h; cases h

/-- C2 witness: a two-row batch whose retraction column is
[false, true] (a retract-then-insert pair), mapped through one constant
expression, keeps row count 2 and the identical retraction column. -/
theorem map_batch_retractions_witness :
    (RecordBatch.mk ⟨[⟨"y", DataType.Int64, false⟩, ⟨"retraction", DataType.Boolean, false⟩]⟩
        [[ScalarValue.Int64 42, ScalarValue.Int64 42],
         [ScalarValue.Boolean false, ScalarValue.Boolean true]]).num_rows
      = (RecordBatch.mk ⟨[⟨"a", DataType.Int64, false⟩, ⟨"retraction", DataType.Boolean, false⟩]⟩
        [[ScalarValue.Int64 1, ScalarValue.Int64 2],
         [ScalarValue.Boolean false, ScalarValue.Boolean true]]).num_rows
    ∧ (RecordBatch.mk ⟨[⟨"y", DataType.Int64, false⟩, ⟨"retraction", DataType.Boolean, false⟩]⟩
        [[ScalarValue.Int64 42, ScalarValue.Int64 42],
         [ScalarValue.Boolean false, ScalarValue.Boolean true]]).columns.getLast?
      = (RecordBatch.mk ⟨[⟨"a", DataType.Int64, false⟩, ⟨"retraction", DataType.Boolean, false⟩]⟩
        [[ScalarValue.Int64 1, ScalarValue.Int64 2],
         [ScalarValue.Boolean false, ScalarValue.Boolean true]]).columns.getLast? := by
  have h := map_batch_retractions [.const (.Int64 42)] false
      ⟨[⟨"y", DataType.Int64, false⟩, ⟨"retraction", DataType.Boolean, false⟩]⟩
      ⟨.base ⟨[]⟩ []⟩
      (RecordBatch.mk ⟨[⟨"a", DataType.Int64, false⟩, ⟨"retraction", DataType.Boolean, false⟩]⟩
        [[ScalarValue.Int64 1, ScalarValue.Int64 2],
         [ScalarValue.Boolean false, ScalarValue.Boolean true]])
      (RecordBatch.mk ⟨[⟨"y", DataType.Int64, false⟩, ⟨"retraction", DataType.Boolean, false⟩]⟩
        [[ScalarValue.Int64 42, ScalarValue.Int64 42],
         [ScalarValue.Boolean false, ScalarValue.Boolean true]])
      (by simp [mapBatch, evalExprs, Expression.evaluate, constEvaluate,
                RecordBatch.num_rows, RecordBatch.try_new])
      (by decide)
  exact ⟨h.1, h.2.1⟩

/-- C8: every batch the JSON source emits has at most the configured batch
size of rows (given the reader's `with_batch_size` cap on each chunk) and
carries an appended retraction column of exactly the batch's row count,
every entry false — the source never originates retractions. -/
theorem json_source_batches (batchSize : Nat) (schema : Schema)
    (chunks : List (List Column)) (out : List RecordBatch) :
    (∀ ch ∈ chunks, (ch.headD []).length ≤ batchSize) →
    JSONSource.run batchSize schema chunks = .ok out →
    ∀ b ∈ out, b.num_rows ≤ batchSize
      ∧ b.columns.getLast? = some (List.replicate b.num_rows (ScalarValue.Boolean false)) := by
  intro hcap hrun
  induction chunks generalizing out with
  | nil =>
    unfold JSONSource.run at hrun
    cases hrun
    intro b hb
    cases hb
  | cons chunk rest ih =>
    unfold JSONSource.run at hrun
    cases hh : chunk.head? with
    | some c0 =>
      simp only [hh] at hrun
      cases ht : RecordBatch.try_new schema
          (chunk ++ [if c0.length = batchSize
                     then List.replicate batchSize (ScalarValue.Boolean false)
                     else List.replicate c0.length (ScalarValue.Boolean false)]) with
      | some b0 =>
        simp only [ht] at hrun
        cases hr : JSONSource.run batchSize schema rest with
        | ok out2 =>
          simp only [hr] at hrun
          cases hrun
          intro b hb
          obtain ⟨hs, hc, hcount, hall⟩ := try_new_some _ _ _ ht
          have hcap0 : c0.length ≤ batchSize := by
            have := hcap chunk (by simp)
            cases chunk with
            | nil => cases hh
            | cons x xs =>
              cases hh
              simpa using this
          have hretr : (if c0.length = batchSize
              then List.replicate batchSize (ScalarValue.Boolean false)
              else List.replicate c0.length (ScalarValue.Boolean false))
              = List.replicate c0.length (ScalarValue.Boolean false) := by
            by_cases hcb : c0.length = batchSize
            · rw [if_pos hcb, hcb]
            · rw [if_neg hcb]
          have hnum : b0.num_rows = c0.length := by
            unfold RecordBatch.num_rows
            rw [hc]
            cases chunk with
            | nil => cases hh
            | cons x xs => cases hh; rfl
          cases hb with
          | head =>
            refine ⟨by rw [hnum]; exact hcap0, ?_⟩
            rw [hc, List.getLast?_concat, hretr, hnum]
          | tail _ hb2 =>
            exact ih out2 (fun ch hch => hcap ch (List.mem_cons_of_mem _ hch)) hr b hb2
        | err e2 => simp only [hr] at hrun; cases hrun
        | fatal => simp only [hr] at hrun; cases hrun
      | none => simp only [ht] at hrun; cases hrun
    | none => simp only [hh] at hrun; cases hrun

/-- C8 witness: batch size 3, chunks of 3 and 1 rows: the first emitted
batch has 3 rows (≤ 3) and retraction column [false, false, false]. -/
theorem json_source_batches_witness :
    (RecordBatch.mk ⟨[⟨"a", DataType.Int64, false⟩, ⟨"retraction", DataType.Boolean, false⟩]⟩
        [[ScalarValue.Int64 1, ScalarValue.Int64 2, ScalarValue.Int64 3],
         [ScalarValue.Boolean false, ScalarValue.Boolean false, ScalarValue.Boolean false]]).num_rows ≤ 3
    ∧ (RecordBatch.mk ⟨[⟨"a", DataType.Int64, false⟩, ⟨"retraction", DataType.Boolean, false⟩]⟩
        [[ScalarValue.Int64 1, ScalarValue.Int64 2, ScalarValue.Int64 3],
         [ScalarValue.Boolean false, ScalarValue.Boolean false, ScalarValue.Boolean false]]).columns.getLast?
      = some (List.replicate
          (RecordBatch.mk ⟨[⟨"a", DataType.Int64, false⟩, ⟨"retraction", DataType.Boolean, false⟩]⟩
            [[ScalarValue.Int64 1, ScalarValue.Int64 2, ScalarValue.Int64 3],
             [ScalarValue.Boolean false, ScalarValue.Boolean false, ScalarValue.Boolean false]]).num_rows
          (ScalarValue.Boolean false)) :=
  json_source_batches 3
    ⟨[⟨"a", DataType.Int64, false⟩, ⟨"retraction", DataType.Boolean, false⟩]⟩
    [[[ScalarValue.Int64 1, ScalarValue.Int64 2, ScalarValue.Int64 3]],
     [[ScalarValue.Int64 4]]]
    [⟨⟨[⟨"a", DataType.Int64, false⟩, ⟨"retraction", DataType.Boolean, false⟩]⟩,
      [[ScalarValue.Int64 1, ScalarValue.Int64 2, ScalarValue.Int64 3],
       [ScalarValue.Boolean false, ScalarValue.Boolean false, ScalarValue.Boolean false]]⟩,
     ⟨⟨[⟨"a", DataType.Int64, false⟩, ⟨"retraction", DataType.Boolean, false⟩]⟩,
      [[ScalarValue.Int64 4], [ScalarValue.Boolean false]]⟩]
    (by decide) (by decide) _ (by decide)

/-- An outer row for which the inner query run produces exactly one batch
of exactly one row, with a first column present (the success case of the
subquery row loop). -/
def goodRow (q : Node) (ctx : ExecutionContext) (record : RecordBatch) (i : Nat) : Prop :=
  ∃ b col, Node.run q (extendCtx ctx record i) = .ok [b]
    ∧ b.num_rows = 1 ∧ b.columns.head? = some col

/-- The subquery row loop goes fatal when it reaches a row whose inner run
returns a batch list that is not exactly one batch of exactly one row. -/
theorem subqueryRows_fatal (q : Node) (ctx : ExecutionContext) (record : RecordBatch)
    (i : Nat) (bs : List RecordBatch)
    (hrun : Node.run q (extendCtx ctx record i) = .ok bs)
    (hbad : ∀ b, bs = [b] → b.num_rows ≠ 1) :
    ∀ cnt s, (∀ j, s ≤ j → j < i → goodRow q ctx record j) → s ≤ i → i < s + cnt →
      subqueryRows q ctx record (List.range' s cnt) = .fatal := by
  intro cnt
  induction cnt with
  | zero => intro s hgood hsi hlt; omega
  | succ cnt ih =>
    intro s hgood hsi hlt
    rw [List.range'_succ]
    by_cases hsie : s = i
    · subst hsie
      unfold subqueryRows
      simp only [hrun]
      cases bs with
      | nil => rfl
      | cons b bs2 =>
        cases bs2 with
        | nil =>
          have := hbad b rfl
          simp [this]
        | cons b2 bs3 => rfl
    · have hslt : s < i := lt_of_le_of_ne hsi hsie
      obtain ⟨b, col, hrs, hnum, hcol⟩ := hgood s (le_refl s) hslt
      unfold subqueryRows
      simp only [hrs, hnum, hcol]
      have hrest := ih (s + 1) (fun j h1 h2 => hgood j (by omega) h2) (by omega) (by omega)
      simp [hrest]

/-- C4: a correlated subquery evaluation whose inner query, for some outer
row it reaches, produces a number of batches different from one, or one
batch whose row count differs from one, ends in the fatal unimplemented
branch — unrecoverable, and no value is produced for that batch. -/
theorem subquery_cardinality_fatal (q : Node) (ctx : ExecutionContext)
    (record : RecordBatch) (ss : Schema) (f : ArrowField) (i : Nat)
    (bs : List RecordBatch) :
    Node.schema q (.withSchema ctx.variable_context.toSchemaContext record.schema) = .ok ss →
    ss.fields.head? = some f →
    i < record.num_rows →
    (∀ j, j < i → goodRow q ctx record j) →
    Node.run q (extendCtx ctx record i) = .ok bs →
    (∀ b, bs = [b] → b.num_rows ≠ 1) →
    Expression.evaluate (.subquery q) ctx record = Res.fatal := by
  intro hschema hhead hi hgood hrun hbad
  unfold Expression.evaluate
  simp only [hschema, hhead]
  have hsub : subqueryRows q ctx record (List.range record.num_rows) = .fatal := by
    rw [List.range_eq_range']
    exact subqueryRows_fatal q ctx record i bs hrun hbad record.num_rows 0
      (fun j h1 h2 => hgood j h2) (Nat.zero_le i) (by omega)
  simp [hsub]

/-- C4 witness: an inner query producing one batch of two rows for the
single outer row makes the subquery evaluation fatal. -/
theorem subquery_cardinality_fatal_witness :
    Expression.evaluate
      (.subquery (.source ⟨[⟨"v", DataType.Int64, false⟩, ⟨"retraction", DataType.Boolean, false⟩]⟩
        [⟨⟨[⟨"v", DataType.Int64, false⟩, ⟨"retraction", DataType.Boolean, false⟩]⟩,
          [[ScalarValue.Int64 10, ScalarValue.Int64 20],
           [ScalarValue.Boolean false, ScalarValue.Boolean false]]⟩]))
      ⟨.base ⟨[]⟩ []⟩
      ⟨⟨[⟨"a", DataType.Int64, false⟩, ⟨"retraction", DataType.Boolean, false⟩]⟩,
       [[ScalarValue.Int64 1], [ScalarValue.Boolean false]]⟩
      = Res.fatal := by
  refine subquery_cardinality_fatal _ _ _
      ⟨[⟨"v", DataType.Int64, false⟩, ⟨"retraction", DataType.Boolean, false⟩]⟩
      ⟨"v", DataType.Int64, false⟩ 0
      [⟨⟨[⟨"v", DataType.Int64, false⟩, ⟨"retraction", DataType.Boolean, false⟩]⟩,
        [[ScalarValue.Int64 10, ScalarValue.Int64 20],
         [ScalarValue.Boolean false, ScalarValue.Boolean false]]⟩]
      (by simp [Node.schema]) rfl (by decide)
      (fun j h => absurd h (Nat.not_lt_zero j))
      (by simp [Node.run])
      ?_
  intro b hb
  cases hb
  decide

/-- The `Map::schema` expression loop goes fatal (the `unwrap_or_else`
panic), never returning the error, when one expression's `field_meta`
fails after the earlier ones succeeded. -/
theorem fieldMetas_fatal (sctx : SchemaContext) (s : Schema) (ex : Expression)
    (es2 : List Expression) (err0 : Error)
    (hex : Expression.field_meta ex sctx s = .err err0) :
    ∀ es1 : List Expression, (∀ e2 ∈ es1, ∃ f, Expression.field_meta e2 sctx s = .ok f) →
      fieldMetas (es1 ++ ex :: es2) sctx s = .fatal := by
  intro es1
  induction es1 with
  | nil =>
    intro hok
    unfold fieldMetas
    simp [hex]
  | cons e2 es1 ih =>
    intro hok
    obtain ⟨f, hf⟩ := hok e2 (List.mem_cons_self e2 es1)
    have hrest := ih (fun e3 h3 => hok e3 (List.mem_cons_of_mem _ h3))
    rw [List.cons_append]
    unfold fieldMetas
    simp [hf, hrest]

/-- A batch on which the expression evaluation loop fails makes the Map
closure return exactly that error. -/
theorem mapBatch_err (exprs : List Expression) (keep : Bool) (os : Schema)
    (ctx : ExecutionContext) (b : RecordBatch) (e : Error)
    (h : evalExprs exprs ctx b = .err e) :
    mapBatch exprs keep os ctx b = .err e := by
  unfold mapBatch
  simp [h]

/-- The per-batch loop of `Map::run` propagates the first failing batch's
error after transforming the earlier batches successfully. -/
theorem mapBatches_err (exprs : List Expression) (keep : Bool) (os : Schema)
    (ctx : ExecutionContext) (b : RecordBatch) (bs2 : List RecordBatch) (e : Error)
    (hb : mapBatch exprs keep os ctx b = .err e) :
    ∀ bs1 : List RecordBatch, (∀ b2 ∈ bs1, ∃ nb, mapBatch exprs keep os ctx b2 = .ok nb) →
      mapBatches exprs keep os ctx (bs1 ++ b :: bs2) = .err e := by
  intro bs1
  induction bs1 with
  | nil =>
    intro hok
    unfold mapBatches
    simp [hb]
  | cons b2 bs1 ih =>
    intro hok
    obtain ⟨nb, hnb⟩ := hok b2 (List.mem_cons_self b2 bs1)
    have hrest := ih (fun b3 h3 => hok b3 (List.mem_cons_of_mem _ h3))
    rw [List.cons_append]
    unfold mapBatches
    simp [hnb, hrest]

/-- C7 counterexample: an expression whose `field_meta` fails with a
name-resolution error makes `Map::schema` abort with the fatal
`unimplemented!` panic of its `unwrap_or_else` — it does not return that
error to the caller. -/
theorem map_schema_error_cex :
    Expression.field_meta (.field "x") SchemaContext.empty
        ⟨[⟨"a", DataType.Int64, false⟩, ⟨"retraction", DataType.Boolean, false⟩]⟩
      = Res.err (.wrapped (Error.render (.fieldNotFound "x")) (.scopeNotFound "x"))
    ∧ Node.schema
        (.map (.source ⟨[⟨"a", DataType.Int64, false⟩, ⟨"retraction", DataType.Boolean, false⟩]⟩ [])
          [.field "x"] ["y"] false) SchemaContext.empty
      = Res.fatal
    ∧ Node.schema
        (.map (.source ⟨[⟨"a", DataType.Int64, false⟩, ⟨"retraction", DataType.Boolean, false⟩]⟩ [])
          [.field "x"] ["y"] false) SchemaContext.empty
      ≠ Res.err (.wrapped (Error.render (.fieldNotFound "x")) (.scopeNotFound "x")) := by
  have hfm : Expression.field_meta (.field "x") SchemaContext.empty
      ⟨[⟨"a", DataType.Int64, false⟩, ⟨"retraction", DataType.Boolean, false⟩]⟩
      = Res.err (.wrapped (Error.render (.fieldNotFound "x")) (.scopeNotFound "x")) := by
    simp only [Expression.field_meta]
    decide
  have hs : Node.schema
      (.map (.source ⟨[⟨"a", DataType.Int64, false⟩, ⟨"retraction", DataType.Boolean, false⟩]⟩ [])
        [.field "x"] ["y"] false) SchemaContext.empty = Res.fatal := by
    unfold Node.schema
    have hms : fieldMetas [.field "x"] SchemaContext.empty
        ⟨[⟨"a", DataType.Int64, false⟩, ⟨"retraction", DataType.Boolean, false⟩]⟩ = .fatal := by
      unfold fieldMetas
      simp [hfm]
    simp [Node.schema, hms]
  exact ⟨hfm, hs, by rw [hs]; decide⟩

/-- C7 (amended): failures inside expression evaluation propagate as
returned errors — when an expression's `evaluate` fails on a batch (the
earlier batches and expressions having succeeded), `Map::run` returns that
error; but a failure inside expression schema computation does not
propagate as a returned error — when an expression's `field_meta` fails,
`Map::schema` aborts with the fatal `unimplemented!` panic instead of
returning the error. -/
theorem map_error_propagation (src : Node) (es1 es2 : List Expression) (ex : Expression)
    (names : List String) (keep : Bool) (sctx : SchemaContext) (s : Schema) (err0 : Error)
    (ctx : ExecutionContext) (os : Schema) (exprs : List Expression)
    (bs1 bs2 : List RecordBatch) (b : RecordBatch) (e : Error) :
    (Node.schema src sctx = .ok s →
     (∀ e2 ∈ es1, ∃ f, Expression.field_meta e2 sctx s = .ok f) →
     Expression.field_meta ex sctx s = .err err0 →
     Node.schema (.map src (es1 ++ ex :: es2) names keep) sctx = Res.fatal)
    ∧ (Node.schema (.map src exprs names keep) ctx.variable_context.toSchemaContext = .ok os →
       Node.run src ctx = .ok (bs1 ++ b :: bs2) →
       (∀ b2 ∈ bs1, ∃ nb, mapBatch exprs keep os ctx b2 = .ok nb) →
       evalExprs exprs ctx b = .err e →
       Node.run (.map src exprs names keep) ctx = Res.err e) := by
  constructor
  · intro h1 hok hex
    have hm := fieldMetas_fatal sctx s ex es2 err0 hex es1 hok
    unfold Node.schema
    simp [h1, hm]
  · intro hos hsrc hpref heval
    have hb := mapBatch_err exprs keep os ctx b e heval
    have hms := mapBatches_err exprs keep os ctx b bs2 e hb bs1 hpref
    unfold Node.run
    simp [hos, hsrc, hms]

/-- C7 witness: the amended theorem applied twice — a failing `field_meta`
makes the concrete Map's schema fatal, and a failing `evaluate` (a field
reference absent from the runtime batch and every scope) makes the
concrete Map's run return exactly that error. -/
theorem map_error_propagation_witness :
    Node.schema
      (.map (.source ⟨[⟨"b", DataType.Int64, false⟩, ⟨"retraction", DataType.Boolean, false⟩]⟩ [])
        [.field "z"] ["y"] false) SchemaContext.empty = Res.fatal
    ∧ Node.run
        (.map (.source ⟨[⟨"x", DataType.Int64, false⟩, ⟨"retraction", DataType.Boolean, false⟩]⟩
            [⟨⟨[⟨"a", DataType.Int64, false⟩, ⟨"retraction", DataType.Boolean, false⟩]⟩,
              [[ScalarValue.Int64 1], [ScalarValue.Boolean false]]⟩])
          [.field "x"] ["y"] false) ⟨.base ⟨[]⟩ []⟩
      = Res.err (.fieldNotFound "x") := by
  constructor
  · refine (map_error_propagation
      (.source ⟨[⟨"b", DataType.Int64, false⟩, ⟨"retraction", DataType.Boolean, false⟩]⟩ [])
      [] [] (.field "z") ["y"] false SchemaContext.empty
      ⟨[⟨"b", DataType.Int64, false⟩, ⟨"retraction", DataType.Boolean, false⟩]⟩
      (.wrapped (Error.render (.fieldNotFound "z")) (.scopeNotFound "z"))
      ⟨.base ⟨[]⟩ []⟩ ⟨[]⟩ [] [] [] ⟨⟨[]⟩, []⟩ (.fieldNotFound "z")).1
      (by simp [Node.schema])
      (fun e2 h2 => absurd h2 (List.not_mem_nil e2))
      ?_
    simp only [Expression.field_meta]
    decide
  · have heval : evalExprs [.field "x"] ⟨.base ⟨[]⟩ []⟩
        ⟨⟨[⟨"a", DataType.Int64, false⟩, ⟨"retraction", DataType.Boolean, false⟩]⟩,
         [[ScalarValue.Int64 1], [ScalarValue.Boolean false]]⟩
        = Res.err (.fieldNotFound "x") := by
      have hfe : FieldExpression.evaluate "x" ⟨.base ⟨[]⟩ []⟩
          ⟨⟨[⟨"a", DataType.Int64, false⟩, ⟨"retraction", DataType.Boolean, false⟩]⟩,
           [[ScalarValue.Int64 1], [ScalarValue.Boolean false]]⟩
          = Res.err (.fieldNotFound "x") := by decide
      simp [evalExprs, Expression.evaluate, hfe]
    have hos : Node.schema
        (.map (.source ⟨[⟨"x", DataType.Int64, false⟩, ⟨"retraction", DataType.Boolean, false⟩]⟩
            [⟨⟨[⟨"a", DataType.Int64, false⟩, ⟨"retraction", DataType.Boolean, false⟩]⟩,
              [[ScalarValue.Int64 1], [ScalarValue.Boolean false]]⟩])
          [.field "x"] ["y"] false)
        (VariableContext.toSchemaContext (.base ⟨[]⟩ []))
        = Res.ok ⟨[⟨"y", DataType.Int64, false⟩, ⟨"retraction", DataType.Boolean, false⟩]⟩ := by
      have hfm : Expression.field_meta (.field "x")
          (VariableContext.toSchemaContext (.base ⟨[]⟩ []))
          ⟨[⟨"x", DataType.Int64, false⟩, ⟨"retraction", DataType.Boolean, false⟩]⟩
          = Res.ok ⟨"x", DataType.Int64, false⟩ := by
        simp only [Expression.field_meta]
        decide
      have hms : fieldMetas [.field "x"]
          (VariableContext.toSchemaContext (.base ⟨[]⟩ []))
          ⟨[⟨"x", DataType.Int64, false⟩, ⟨"retraction", DataType.Boolean, false⟩]⟩
          = .ok [⟨"x", DataType.Int64, false⟩] := by
        simp [fieldMetas, hfm]
      simp [Node.schema, hms, renameFields, retractions_field]
    exact (map_error_propagation
      (.source ⟨[⟨"x", DataType.Int64, false⟩, ⟨"retraction", DataType.Boolean, false⟩]⟩
        [⟨⟨[⟨"a", DataType.Int64, false⟩, ⟨"retraction", DataType.Boolean, false⟩]⟩,
          [[ScalarValue.Int64 1], [ScalarValue.Boolean false]]⟩])
      [] [] (.const .Null) ["y"] false SchemaContext.empty ⟨[]⟩ (.fieldNotFound "x")
      ⟨.base ⟨[]⟩ []⟩ ⟨[⟨"y", DataType.Int64, false⟩, ⟨"retraction", DataType.Boolean, false⟩]⟩
      [.field "x"] []
      [] ⟨⟨[⟨"a", DataType.Int64, false⟩, ⟨"retraction", DataType.Boolean, false⟩]⟩,
          [[ScalarValue.Int64 1], [ScalarValue.Boolean false]]⟩
      (.fieldNotFound "x")).2
      hos (by simp [Node.run])
      (fun b2 h2 => absurd h2 (List.not_mem_nil b2))
      heval
